import Mathlib

/-!
Respikar.Bootstrap: the `Alarm` class of `src/js/Alarm.js`.

A shallow embedding of the `Alarm` class: the frozen `Week` object, the
constructor, the day-count queries, the two label builders
(`getHourAndMinutes`, `getDaysUsed`), `toJSON` and `toHTML`, followed by the
properties established about them.

Conventions of the embedding

* a JavaScript `Map<String, Boolean>` is the list of its entries in insertion
  order (`Map.prototype.set` overwrites in place or appends);
* a plain object used as a record (`daysUsedObject`) is the list of its own
  string-keyed properties in creation order;
* a DOM element is a tree carrying exactly the parts the class writes: tag,
  attributes, class list, inline style, `innerText` and child elements;
* `hour`, `minute` are natural numbers (the class declares them `number` and
  only ever stores `12` and `30`);
* the two icon widgets (`IconAlarm.js`, `IconClose.js`) are not part of the
  file and are taken as parameters.
-/

namespace Respikar

/-! ## JavaScript primitives used by the class -/

/-- The JavaScript values that reach a string concatenation or an `innerText`
assignment in the class: a string, or `undefined`. -/
inductive JSValue where
  | undefined
  | string (s : String)
deriving DecidableEq, Repr

/-- The abstract operation `ToString` on the values above. -/
def JSValue.toJSString : JSValue → String
  | .undefined => "undefined"
  | .string s => s

/-- The expression `v + s` for a string `s`: concatenation of `ToString(v)` and `s`. -/
def JSValue.plus (v : JSValue) (s : String) : String :=
  v.toJSString ++ s

/-- The call `String(n)` for a natural number `n` below `10^21` (decimal digits,
no padding, no exponent). -/
def jsString (n : Nat) : String :=
  ⟨Nat.toDigits 10 n⟩

/-- The numeric value of a string of decimal digits, as used when a string is
compared with a number (`hours >= 1`): the operand is converted with `ToNumber`. -/
def toNumber (s : String) : Nat :=
  s.data.foldl (fun n c => 10 * n + (c.toNat - 48)) 0

/-- The expression `s[0]`: the first character as a one-character string, or
`undefined` when the string is empty. -/
def charAtZero (s : String) : JSValue :=
  match s.data with
  | [] => .undefined
  | c :: _ => .string ⟨[c]⟩

/-- The method `String.prototype.substring(start, stop)`; the two indices are
swapped when `start > stop` and clamped to the length. -/
def substring (s : String) (start stop : Nat) : String :=
  ⟨(s.data.drop (min start stop)).take (max start stop - min start stop)⟩

/-- The method `String.prototype.toLowerCase()` on ASCII text (the day names). -/
def toLowerCase (s : String) : String :=
  ⟨s.data.map Char.toLower⟩

/-- The inverse case mapping `String.prototype.toUpperCase()` on ASCII text. -/
def toUpperCase (s : String) : String :=
  ⟨s.data.map Char.toUpper⟩

/-- The method `Map.prototype.set` (also: assignment `obj[k] = v` to a record):
an existing key keeps its position and takes the new value, a new key is
appended. -/
def mapSet {β : Type} (m : List (String × β)) (k : String) (v : β) : List (String × β) :=
  match m with
  | [] => [(k, v)]
  | (k', v') :: rest => if k' = k then (k', v) :: rest else (k', v') :: mapSet rest k v

/-- The iterator `Map.prototype.keys()`. -/
def mapKeys {β : Type} (m : List (String × β)) : List String :=
  m.map Prod.fst

/-- The iterator `Map.prototype.values()`. -/
def mapValues {β : Type} (m : List (String × β)) : List β :=
  m.map Prod.snd

/-! ## DOM elements -/

/-- A DOM element, reduced to what the class sets on it. -/
inductive Element where
  | mk (tagName : String) (attributes : List (String × String)) (classList : List String)
      (style : List (String × String)) (innerText : String) (children : List Element)

namespace Element

/-- The tag given to `document.createElement`. -/
def tagName : Element → String
  | mk t _ _ _ _ _ => t

/-- The attributes set with `setAttribute`. -/
def attributes : Element → List (String × String)
  | mk _ a _ _ _ _ => a

/-- The tokens of `classList`, in order. -/
def classList : Element → List String
  | mk _ _ c _ _ _ => c

/-- The inline style properties that were assigned. -/
def style : Element → List (String × String)
  | mk _ _ _ s _ _ => s

/-- The text last assigned to `innerText`. -/
def innerText : Element → String
  | mk _ _ _ _ t _ => t

/-- The child elements, in document order. -/
def children : Element → List Element
  | mk _ _ _ _ _ c => c

/-- The call `document.createElement(tag)`. -/
def createElement (tag : String) : Element :=
  mk tag [] [] [] "" []

/-- The call `DOMTokenList.add(...tokens)`: each token is appended unless present. -/
def classListAdd (e : Element) (tokens : List String) : Element :=
  match e with
  | mk t a c s x ch => mk t a (tokens.foldl (fun l tok => if tok ∈ l then l else l ++ [tok]) c) s x ch

/-- The call `setAttribute(name, value)`. -/
def setAttribute (e : Element) (name value : String) : Element :=
  match e with
  | mk t a c s x ch => mk t (mapSet a name value) c s x ch

/-- The assignment `element.style[prop] = value`. -/
def setStyle (e : Element) (prop value : String) : Element :=
  match e with
  | mk t a c s x ch => mk t a c (mapSet s prop value) x ch

/-- The assignment `element.innerText = value` (the value is converted with `ToString`). -/
def setInnerText (e : Element) (value : JSValue) : Element :=
  match e with
  | mk t a c s _ ch => mk t a c s value.toJSString ch

/-- The call `appendChild(child)` with a freshly created child. -/
def appendChild (e child : Element) : Element :=
  match e with
  | mk t a c s x ch => mk t a c s x (ch ++ [child])

end Element

open Element

/-! ## The `Week` object and the `Alarm` class -/

/-- The frozen object `Week`: its properties in declaration order, key and value. -/
def Week : List (String × String) :=
  [("SUNDAY", "SUNDAY"), ("MONDAY", "MONDAY"), ("TUESDAY", "TUESDAY"),
   ("WEDNESDAY", "WEDNESDAY"), ("THURSDAY", "THURSDAY"), ("FRIDAY", "FRIDAY"),
   ("SATURDAY", "SATURDAY")]

/-- The seven canonical day values, Sunday first (the values of `Week`). -/
def weekDays : List String :=
  mapValues Week

/-- The behaviour of the two imported icon widgets, which the class only
constructs, deactivates and renders. -/
structure Widgets (ι κ : Type) where
  newIconAlarm : ι
  newIconClose : String → κ
  deactivate : ι → ι
  iconAlarmToHTML : ι → Element × ι
  iconCloseToHTML : κ → Element × κ

/-- The fields of an `Alarm` instance. -/
structure Alarm (ι κ : Type) where
  uuid : String
  hour : Nat
  minute : Nat
  daysActive : List (String × Bool)
  iconAlarm : ι
  iconClose : κ

variable {ι κ : Type}

/-- The getter `DAYS_FOR_WEEK`. -/
def DAYS_FOR_WEEK : Nat := 7

/-- The getter `MINIMUM_DAYS_NEED_FOR_SHOW_THREE_LETTERS_OF_DAY`. -/
def MINIMUM_DAYS_NEED_FOR_SHOW_THREE_LETTERS_OF_DAY : Nat := 3

/-- The constructor; `r` is the integer `Math.floor(Math.random() * Date.now())`. -/
def Alarm.new (w : Widgets ι κ) (r : Nat) : Alarm ι κ :=
  let uuid := "U" ++ jsString r
  { uuid := uuid
    hour := 12
    minute := 30
    daysActive := Week.foldl (fun m day => mapSet m day.2 false) []
    iconAlarm := w.newIconAlarm
    iconClose := w.newIconClose uuid }

/-- The method `getNumberOfDaysActives`: a counter incremented for every value
of the map that is true. -/
def getNumberOfDaysActives (a : Alarm ι κ) : Nat :=
  (mapValues a.daysActive).foldl
    (fun counterOfDaysUsed isUsed => if isUsed then counterOfDaysUsed + 1 else counterOfDaysUsed) 0

/-- The method `isAllDaysUsed`. -/
def isAllDaysUsed (a : Alarm ι κ) : Bool :=
  getNumberOfDaysActives a == DAYS_FOR_WEEK

/-- The method `isOnlyThreeDaysUsedOrLess`. -/
def isOnlyThreeDaysUsedOrLess (a : Alarm ι κ) : Bool :=
  let counterOfDaysUsed := getNumberOfDaysActives a
  decide (counterOfDaysUsed > 0) &&
    decide (counterOfDaysUsed ≤ MINIMUM_DAYS_NEED_FOR_SHOW_THREE_LETTERS_OF_DAY)

/-- The method `isAllDaysDeactivate`. -/
def isAllDaysDeactivate (a : Alarm ι κ) : Bool :=
  getNumberOfDaysActives a == 0

/-- The method `createElementsDay(letter)`: a column holding one paragraph. -/
def createElementsDay (letter : JSValue) : Element :=
  let column := (createElement "div").classListAdd ["col", "px-0"]
  let paragraph := (createElement "p").classListAdd ["my-0"]
  let paragraph := paragraph.setInnerText letter
  column.appendChild paragraph

/-- The method `getHourAndMinutes`. -/
def getHourAndMinutes (a : Alarm ι κ) : Element :=
  let hours := jsString a.hour
  let minutes := jsString a.minute
  let hours := if toNumber hours ≥ 1 ∧ toNumber hours ≤ 9 then "0" ++ hours else hours
  let paragraphHour := (createElement "p").classListAdd ["col-7", "h1", "mb-0"]
  let paragraphHour :=
    if isAllDaysDeactivate a then paragraphHour.classListAdd ["text-muted"] else paragraphHour
  paragraphHour.setInnerText (.string (hours ++ ":" ++ minutes))

/-- The loop of `getDaysUsed` (few-days branch) that collects the keys whose
value is true, in the order of the map. -/
def collectActiveDays (a : Alarm ι κ) : List String :=
  a.daysActive.foldl (fun days entry => if entry.2 then days ++ [entry.1] else days) []

/-- The loop `for (let day of this.daysActive.keys()) container.appendChild(...)`
shared by the three marker branches of `getDaysUsed`. -/
def appendDayMarkers (a : Alarm ι κ) (container : Element) : Element :=
  (mapKeys a.daysActive).foldl
    (fun container day => container.appendChild (createElementsDay (charAtZero day))) container

/-- The method `getDaysUsed`. In the second branch the arrow function given to
`days.map` has a block body without `return`, so every element becomes
`undefined`; the loop after it assigns (does not append to) `innerText`. -/
def getDaysUsed (a : Alarm ι κ) : Element :=
  if isAllDaysUsed a then
    let container := (createElement "div").classListAdd ["row", "flex-nowrap"]
    appendDayMarkers a container
  else if isOnlyThreeDaysUsedOrLess a then
    let days := collectActiveDays a
    let days := days.map (fun value =>
      let _discarded := substring value 0 3
      JSValue.undefined)
    let container := (createElement "div").classListAdd ["mb-0", "text-nowrap"]
    days.foldl (fun container day => container.setInnerText (.string (day.plus ", "))) container
  else if isAllDaysDeactivate a then
    let container := (createElement "div").classListAdd ["row", "flex-nowrap", "text-muted"]
    appendDayMarkers a container
  else
    let container := (createElement "div").classListAdd ["row", "flex-nowrap"]
    appendDayMarkers a container

/-- The object returned by `toJSON`. -/
structure AlarmJSON where
  uuid : String
  hour : Nat
  minute : Nat
  daysUsed : List (String × Bool)
deriving DecidableEq, Repr

/-- The method `toJSON`. -/
def toJSON (a : Alarm ι κ) : AlarmJSON :=
  let daysUsedObject :=
    a.daysActive.foldl (fun obj entry => mapSet obj (toLowerCase entry.1) entry.2) []
  { uuid := a.uuid
    hour := a.hour
    minute := a.minute
    daysUsed := daysUsedObject }

/-- The method `toHTML`: the card element and the instance afterwards (the
alarm icon is deactivated when no day is active). Elements are shared by
reference in the source, so `containerHour` shows the children that
`innerContainer` receives after it was appended; here it is appended once it
is complete. -/
def toHTML (w : Widgets ι κ) (a : Alarm ι κ) : Element × Alarm ι κ :=
  let container := (createElement "div").setAttribute "id" a.uuid
  let container := container.classListAdd
    ["row", "row-cols-3", "mb-3", "bg-white", "border", "align-items-center", "pb-3", "pt-4"]
  let containerHour := (createElement "div").classListAdd ["col-6"]
  let innerContainer := (createElement "div").classListAdd ["row", "row-cols-2"]
  let a := if isAllDaysDeactivate a then { a with iconAlarm := w.deactivate a.iconAlarm } else a
  let iconAlarmHTML := w.iconAlarmToHTML a.iconAlarm
  let a := { a with iconAlarm := iconAlarmHTML.2 }
  let innerContainer := innerContainer.appendChild iconAlarmHTML.1
  let innerContainer := innerContainer.appendChild (getHourAndMinutes a)
  let containerHour := containerHour.appendChild innerContainer
  let containerDaysActive := (createElement "div").classListAdd ["col-4", "ml-2"]
  let containerDaysActive := containerDaysActive.setStyle "user-select" "none"
  let containerDaysActive := containerDaysActive.appendChild (getDaysUsed a)
  let containerIconToggle := (createElement "div").classListAdd ["col-1"]
  let iconCloseHTML := w.iconCloseToHTML a.iconClose
  let a := { a with iconClose := iconCloseHTML.2 }
  let containerIconToggle := containerIconToggle.appendChild iconCloseHTML.1
  let container := container.appendChild containerHour
  let container := container.appendChild containerDaysActive
  let container := container.appendChild containerIconToggle
  (container, a)

/-- The operations of the class that read an alarm. -/
inductive Operation where
  | getNumberOfDaysActives
  | isAllDaysUsed
  | isOnlyThreeDaysUsedOrLess
  | isAllDaysDeactivate
  | getHourAndMinutes
  | getDaysUsed
  | toJSON
  | toHTML
deriving DecidableEq, Repr

/-- The instance after one operation has been called on it. Only `toHTML`
writes to `this` (through the icon widgets); the others return a value and
leave every field as it was. -/
def runOperation (w : Widgets ι κ) (op : Operation) (a : Alarm ι κ) : Alarm ι κ :=
  match op with
  | .getNumberOfDaysActives => let _result := getNumberOfDaysActives a; a
  | .isAllDaysUsed => let _result := isAllDaysUsed a; a
  | .isOnlyThreeDaysUsedOrLess => let _result := isOnlyThreeDaysUsedOrLess a; a
  | .isAllDaysDeactivate => let _result := isAllDaysDeactivate a; a
  | .getHourAndMinutes => let _result := getHourAndMinutes a; a
  | .getDaysUsed => let _result := getDaysUsed a; a
  | .toJSON => let _result := toJSON a; a
  | .toHTML => (toHTML w a).2

/-- The states reachable from a newly constructed alarm by the operations. -/
inductive Reachable (w : Widgets ι κ) : Alarm ι κ → Prop where
  | init (r : Nat) : Reachable w (Alarm.new w r)
  | step {a : Alarm ι κ} (op : Operation) : Reachable w a → Reachable w (runOperation w op a)

/-! ## Fixtures and reference renderings -/

/-- The map holds the seven canonical days, in the order the constructor
inserts them. -/
def HasCanonicalDays (a : Alarm ι κ) : Prop :=
  mapKeys a.daysActive = weekDays

/-- Icon widgets without state, for concrete alarms. -/
def plainWidgets : Widgets Unit Unit :=
  { newIconAlarm := ()
    newIconClose := fun _ => ()
    deactivate := fun i => i
    iconAlarmToHTML := fun i => (createElement "div", i)
    iconCloseToHTML := fun i => (createElement "div", i) }

/-- An alarm with the given time and the given flags for Sunday to Saturday:
the constructor followed by assignments to `hour`, `minute` and calls of
`daysActive.set`. -/
def alarmWith (hour minute : Nat) (su mo tu we th fr sa : Bool) : Alarm Unit Unit :=
  let a := Alarm.new plainWidgets 1
  let days := [("SUNDAY", su), ("MONDAY", mo), ("TUESDAY", tu), ("WEDNESDAY", we),
    ("THURSDAY", th), ("FRIDAY", fr), ("SATURDAY", sa)]
  { a with
    hour := hour
    minute := minute
    daysActive := days.foldl (fun m entry => mapSet m entry.1 entry.2) a.daysActive }

/-- The column that `createElementsDay` builds around one letter, written out. -/
def dayMarker (letter : String) : Element :=
  Element.mk "div" [] ["col", "px-0"] [] "" [Element.mk "p" [] ["my-0"] [] letter []]

/-- A row of the seven single-letter markers, Sunday first, with the given classes. -/
def dayMarkerRow (classes : List String) : Element :=
  Element.mk "div" [] classes [] "" (["S", "M", "T", "W", "T", "F", "S"].map dayMarker)

/-- The four places where `getDaysUsed` can return. -/
inductive Branch where
  | allDays
  | fewDays
  | noDays
  | manyDays
deriving DecidableEq, Repr

/-- The three conditions tested by `getDaysUsed`. -/
inductive Condition where
  | allDaysUsed
  | onlyThreeDaysUsedOrLess
  | allDaysDeactivate
deriving DecidableEq, Repr

/-- The method that evaluates a condition. -/
def Condition.holds (a : Alarm ι κ) : Condition → Bool
  | .allDaysUsed => isAllDaysUsed a
  | .onlyThreeDaysUsedOrLess => isOnlyThreeDaysUsedOrLess a
  | .allDaysDeactivate => isAllDaysDeactivate a

/-- The branch guarded by a condition. -/
def Condition.branch : Condition → Branch
  | .allDaysUsed => .allDays
  | .onlyThreeDaysUsedOrLess => .fewDays
  | .allDaysDeactivate => .noDays

/-- The branch in which `getDaysUsed` returns: its `if / else if` chain with the
bodies left out. -/
def getDaysUsedBranch (a : Alarm ι κ) : Branch :=
  if isAllDaysUsed a then .allDays
  else if isOnlyThreeDaysUsedOrLess a then .fewDays
  else if isAllDaysDeactivate a then .noDays
  else .manyDays

/-- The branch selected when the three conditions are tested in the given
order instead (first one that holds; the final `else` when none holds). -/
def branchInOrder (order : List Condition) (a : Alarm ι κ) : Branch :=
  match order.find? (Condition.holds a) with
  | some c => c.branch
  | none => .manyDays

/-- The body of each branch of `getDaysUsed`. -/
def renderBranch (a : Alarm ι κ) : Branch → Element
  | .allDays => appendDayMarkers a ((createElement "div").classListAdd ["row", "flex-nowrap"])
  | .fewDays =>
    ((collectActiveDays a).map (fun value =>
      let _discarded := substring value 0 3
      JSValue.undefined)).foldl
      (fun container day => container.setInnerText (.string (day.plus ", ")))
      ((createElement "div").classListAdd ["mb-0", "text-nowrap"])
  | .noDays =>
    appendDayMarkers a ((createElement "div").classListAdd ["row", "flex-nowrap", "text-muted"])
  | .manyDays => appendDayMarkers a ((createElement "div").classListAdd ["row", "flex-nowrap"])

/-! ## Auxiliary facts -/

theorem foldl_counter (l : List Bool) (n : Nat) :
    l.foldl (fun counterOfDaysUsed isUsed =>
      if isUsed then counterOfDaysUsed + 1 else counterOfDaysUsed) n
      = n + (l.filter (fun b => b)).length := by
  induction l generalizing n with
  | nil => simp
  | cons b l ih =>
    cases b
    · simp [ih]
    · simp [ih]; omega

theorem getNumberOfDaysActives_eq_filter (a : Alarm ι κ) :
    getNumberOfDaysActives a = (a.daysActive.filter (fun e => e.2)).length := by
  unfold getNumberOfDaysActives mapValues
  rw [foldl_counter, Nat.zero_add, List.filter_map, List.length_map]
  rfl

theorem getNumberOfDaysActives_le_length (a : Alarm ι κ) :
    getNumberOfDaysActives a ≤ a.daysActive.length := by
  rw [getNumberOfDaysActives_eq_filter]
  exact List.length_filter_le _ _

theorem length_of_canonical (a : Alarm ι κ) (h : HasCanonicalDays a) :
    a.daysActive.length = 7 := by
  have := congrArg List.length h
  simpa [mapKeys, weekDays, mapValues, Week] using this

theorem canonical_form (a : Alarm ι κ) (h : HasCanonicalDays a) :
    ∃ su mo tu we th fr sa : Bool,
      a.daysActive = [("SUNDAY", su), ("MONDAY", mo), ("TUESDAY", tu), ("WEDNESDAY", we),
        ("THURSDAY", th), ("FRIDAY", fr), ("SATURDAY", sa)] := by
  unfold HasCanonicalDays mapKeys at h
  have hw : weekDays = ["SUNDAY", "MONDAY", "TUESDAY", "WEDNESDAY", "THURSDAY", "FRIDAY",
      "SATURDAY"] := rfl
  rw [hw] at h
  match hd : a.daysActive, h with
  | [(k0, su), (k1, mo), (k2, tu), (k3, we), (k4, th), (k5, fr), (k6, sa)], h =>
    simp only [List.map, List.cons.injEq, and_true] at h
    obtain ⟨h0, h1, h2, h3, h4, h5, h6⟩ := h
    subst h0 h1 h2 h3 h4 h5 h6
    exact ⟨su, mo, tu, we, th, fr, sa, rfl⟩

theorem foldl_appendChild (f : String → Element) (keys : List String)
    (t : String) (at_ : List (String × String)) (c : List String)
    (st : List (String × String)) (x : String) (ch : List Element) :
    keys.foldl (fun container day => container.appendChild (f day)) (Element.mk t at_ c st x ch)
      = Element.mk t at_ c st x (ch ++ keys.map f) := by
  induction keys generalizing ch with
  | nil => simp
  | cons k keys ih =>
    rw [List.foldl_cons]
    show keys.foldl _ (Element.mk t at_ c st x (ch ++ [f k])) = _
    rw [ih]
    simp

theorem foldl_collect (l : List (String × Bool)) (acc : List String) :
    l.foldl (fun days entry => if entry.2 then days ++ [entry.1] else days) acc
      = acc ++ (l.filter (fun e => e.2)).map Prod.fst := by
  induction l generalizing acc with
  | nil => simp
  | cons e l ih =>
    obtain ⟨k, b⟩ := e
    cases b <;> simp [ih]

theorem collectActiveDays_eq_filter (a : Alarm ι κ) :
    collectActiveDays a = (a.daysActive.filter (fun e => e.2)).map Prod.fst := by
  unfold collectActiveDays
  rw [foldl_collect, List.nil_append]

theorem getDaysUsed_eq_renderBranch (a : Alarm ι κ) :
    getDaysUsed a = renderBranch a (getDaysUsedBranch a) := by
  unfold getDaysUsed getDaysUsedBranch
  by_cases h1 : isAllDaysUsed a = true
  · simp [h1, renderBranch]
  · by_cases h2 : isOnlyThreeDaysUsedOrLess a = true
    · simp [h1, h2, renderBranch]
    · by_cases h3 : isAllDaysDeactivate a = true
      · simp [h1, h2, h3, renderBranch]
      · simp [h1, h2, h3, renderBranch]

theorem isAllDaysUsed_iff (a : Alarm ι κ) :
    isAllDaysUsed a = true ↔ getNumberOfDaysActives a = 7 := by
  simp [isAllDaysUsed, DAYS_FOR_WEEK]

theorem isOnlyThreeDaysUsedOrLess_iff (a : Alarm ι κ) :
    isOnlyThreeDaysUsedOrLess a = true
      ↔ 1 ≤ getNumberOfDaysActives a ∧ getNumberOfDaysActives a ≤ 3 := by
  simp [isOnlyThreeDaysUsedOrLess, MINIMUM_DAYS_NEED_FOR_SHOW_THREE_LETTERS_OF_DAY]
  omega

theorem isAllDaysDeactivate_iff (a : Alarm ι κ) :
    isAllDaysDeactivate a = true ↔ getNumberOfDaysActives a = 0 := by
  simp [isAllDaysDeactivate]

theorem getDaysUsedBranch_of_count (a : Alarm ι κ) :
    (getNumberOfDaysActives a = 7 → getDaysUsedBranch a = .allDays) ∧
    (1 ≤ getNumberOfDaysActives a ∧ getNumberOfDaysActives a ≤ 3 →
      getDaysUsedBranch a = .fewDays) ∧
    (getNumberOfDaysActives a = 0 → getDaysUsedBranch a = .noDays) ∧
    ((4 ≤ getNumberOfDaysActives a ∧ getNumberOfDaysActives a ≤ 6) ∨
      8 ≤ getNumberOfDaysActives a → getDaysUsedBranch a = .manyDays) := by
  have e1 := isAllDaysUsed_iff a
  have e2 := isOnlyThreeDaysUsedOrLess_iff a
  have e3 := isAllDaysDeactivate_iff a
  unfold getDaysUsedBranch
  refine ⟨fun h => ?_, fun h => ?_, fun h => ?_, fun h => ?_⟩
  · rw [if_pos (e1.2 h)]
  · rw [if_neg (fun h1 => by have := e1.1 h1; omega), if_pos (e2.2 h)]
  · rw [if_neg (fun h1 => by have := e1.1 h1; omega),
      if_neg (fun h2 => by have := e2.1 h2; omega), if_pos (e3.2 h)]
  · rw [if_neg (fun h1 => by have := e1.1 h1; omega),
      if_neg (fun h2 => by have := e2.1 h2; omega),
      if_neg (fun h3 => by have := e3.1 h3; omega)]

theorem foldl_setInnerText_undefined (n : Nat) (container : Element) :
    (List.replicate (n + 1) JSValue.undefined).foldl
      (fun container day => container.setInnerText (.string (day.plus ", "))) container
      = container.setInnerText (.string "undefined, ") := by
  induction n generalizing container with
  | zero => cases container; rfl
  | succ n ih =>
    rw [List.replicate_succ, List.foldl_cons, ih]
    cases container
    rfl

theorem renderBranch_fewDays (a : Alarm ι κ) (h : 1 ≤ getNumberOfDaysActives a) :
    renderBranch a .fewDays
      = Element.mk "div" [] ["mb-0", "text-nowrap"] [] "undefined, " [] := by
  have hlen : (collectActiveDays a).length = getNumberOfDaysActives a := by
    rw [collectActiveDays_eq_filter, getNumberOfDaysActives_eq_filter, List.length_map]
  obtain ⟨n, hn⟩ : ∃ n, (collectActiveDays a).length = n + 1 :=
    ⟨(collectActiveDays a).length - 1, by omega⟩
  have hrep : (collectActiveDays a).map (fun value =>
      let _discarded := substring value 0 3
      JSValue.undefined) = List.replicate (n + 1) JSValue.undefined := by
    rw [← hn]
    exact List.eq_replicate_iff.2 ⟨by simp, by simp⟩
  unfold renderBranch
  rw [hrep, foldl_setInnerText_undefined]
  rfl

theorem renderBranch_markers (a : Alarm ι κ) (h : HasCanonicalDays a) :
    renderBranch a .allDays = dayMarkerRow ["row", "flex-nowrap"] ∧
    renderBranch a .noDays = dayMarkerRow ["row", "flex-nowrap", "text-muted"] ∧
    renderBranch a .manyDays = dayMarkerRow ["row", "flex-nowrap"] := by
  have hk : mapKeys a.daysActive = ["SUNDAY", "MONDAY", "TUESDAY", "WEDNESDAY", "THURSDAY",
      "FRIDAY", "SATURDAY"] := h
  simp only [renderBranch, appendDayMarkers, hk]
  exact ⟨rfl, rfl, rfl⟩

theorem classList_setInnerText (e : Element) (v : JSValue) :
    (e.setInnerText v).classList = e.classList := by
  cases e
  rfl

theorem conditions_exclusive (a : Alarm ι κ) :
    ¬ (isAllDaysUsed a = true ∧ isOnlyThreeDaysUsedOrLess a = true) ∧
    ¬ (isAllDaysUsed a = true ∧ isAllDaysDeactivate a = true) ∧
    ¬ (isOnlyThreeDaysUsedOrLess a = true ∧ isAllDaysDeactivate a = true) := by
  rw [isAllDaysUsed_iff, isOnlyThreeDaysUsedOrLess_iff, isAllDaysDeactivate_iff]
  omega

theorem toHTML_fields (w : Widgets ι κ) (a : Alarm ι κ) :
    (toHTML w a).2.uuid = a.uuid ∧ (toHTML w a).2.hour = a.hour ∧
    (toHTML w a).2.minute = a.minute ∧ (toHTML w a).2.daysActive = a.daysActive := by
  unfold toHTML
  by_cases h : isAllDaysDeactivate a = true
  · simp [h]
  · simp [h]

theorem runOperation_fields (w : Widgets ι κ) (op : Operation) (a : Alarm ι κ) :
    (runOperation w op a).hour = a.hour ∧ (runOperation w op a).minute = a.minute ∧
    (runOperation w op a).daysActive = a.daysActive := by
  have h := toHTML_fields w a
  cases op
  case toHTML => exact ⟨h.2.1, h.2.2.1, h.2.2.2⟩
  all_goals exact ⟨rfl, rfl, rfl⟩

/-! ## The day count and the display branch -/

/-- C1: for an alarm holding the seven canonical days, the active-day count
`c` is at most 7 and decides the branch of `getDaysUsed`: `c = 7` returns the
row of seven markers S M T W T F S without the muted class, `1 ≤ c ≤ 3` returns
the label container (classes `mb-0 text-nowrap`, no marker), `c = 0` returns
the seven markers with the muted class, and `4 ≤ c ≤ 6` returns the seven
markers without it. -/
theorem getDaysUsed_branch_of_count (a : Alarm ι κ) (h : HasCanonicalDays a) :
    getNumberOfDaysActives a ≤ 7 ∧
    (getNumberOfDaysActives a = 7 →
      getDaysUsedBranch a = .allDays ∧ getDaysUsed a = dayMarkerRow ["row", "flex-nowrap"]) ∧
    (1 ≤ getNumberOfDaysActives a ∧ getNumberOfDaysActives a ≤ 3 →
      getDaysUsedBranch a = .fewDays ∧ (getDaysUsed a).classList = ["mb-0", "text-nowrap"] ∧
        (getDaysUsed a).children = []) ∧
    (getNumberOfDaysActives a = 0 →
      getDaysUsedBranch a = .noDays ∧
        getDaysUsed a = dayMarkerRow ["row", "flex-nowrap", "text-muted"]) ∧
    (4 ≤ getNumberOfDaysActives a ∧ getNumberOfDaysActives a ≤ 6 →
      getDaysUsedBranch a = .manyDays ∧ getDaysUsed a = dayMarkerRow ["row", "flex-nowrap"]) := by
  obtain ⟨b7, b13, b0, b46⟩ := getDaysUsedBranch_of_count a
  obtain ⟨r7, r0, r46⟩ := renderBranch_markers a h
  have hle : getNumberOfDaysActives a ≤ 7 := by
    have := getNumberOfDaysActives_le_length a
    rw [length_of_canonical a h] at this
    exact this
  refine ⟨hle, fun hc => ?_, fun hc => ?_, fun hc => ?_, fun hc => ?_⟩
  · exact ⟨b7 hc, by rw [getDaysUsed_eq_renderBranch, b7 hc, r7]⟩
  · have hr : getDaysUsed a = Element.mk "div" [] ["mb-0", "text-nowrap"] [] "undefined, " [] := by
      rw [getDaysUsed_eq_renderBranch, b13 hc, renderBranch_fewDays a hc.1]
    exact ⟨b13 hc, by rw [hr]; rfl, by rw [hr]; rfl⟩
  · exact ⟨b0 hc, by rw [getDaysUsed_eq_renderBranch, b0 hc, r0]⟩
  · exact ⟨b46 (Or.inl hc), by rw [getDaysUsed_eq_renderBranch, b46 (Or.inl hc), r46]⟩

/-- C1 at five active days (Sunday to Thursday): the unmuted marker row. -/
theorem getDaysUsed_branch_of_count_witness :
    HasCanonicalDays (alarmWith 12 30 true true true true true false false) ∧
    getDaysUsedBranch (alarmWith 12 30 true true true true true false false) = .manyDays ∧
    getDaysUsed (alarmWith 12 30 true true true true true false false)
      = dayMarkerRow ["row", "flex-nowrap"] :=
  ⟨rfl, (getDaysUsed_branch_of_count
    (alarmWith 12 30 true true true true true false false) rfl).2.2.2.2 (by decide)⟩

/-- C2: `getNumberOfDaysActives` is the number of entries of `daysActive` whose
value is true, for every map; with the seven canonical days it is at most 7,
and for each choice of the seven flags it is the number of flags switched on. -/
theorem getNumberOfDaysActives_counts_true (a : Alarm ι κ) :
    getNumberOfDaysActives a = (a.daysActive.filter (fun e => e.2 = true)).length ∧
    (HasCanonicalDays a → getNumberOfDaysActives a ≤ 7) ∧
    (∀ su mo tu we th fr sa : Bool,
      getNumberOfDaysActives (alarmWith 12 30 su mo tu we th fr sa)
        = su.toNat + mo.toNat + tu.toNat + we.toNat + th.toNat + fr.toNat + sa.toNat) := by
  refine ⟨?_, fun h => ?_, ?_⟩
  · rw [getNumberOfDaysActives_eq_filter]
    congr 2
    funext e
    simp
  · have := getNumberOfDaysActives_le_length a
    rw [length_of_canonical a h] at this
    exact this
  · intro su mo tu we th fr sa
    cases su <;> cases mo <;> cases tu <;> cases we <;> cases th <;> cases fr <;> cases sa <;> rfl

/-- C2 at Monday, Wednesday and Friday: three entries are true. -/
theorem getNumberOfDaysActives_counts_true_witness :
    HasCanonicalDays (alarmWith 12 30 false true false true false true false) ∧
    getNumberOfDaysActives (alarmWith 12 30 false true false true false true false) ≤ 7 :=
  ⟨rfl, (getNumberOfDaysActives_counts_true
    (alarmWith 12 30 false true false true false true false)).2.1 rfl⟩

/-! ## The time label -/

/-- C3: the text of `getHourAndMinutes` at 00:00, 09:05 and 23:59. Only an hour
from 1 to 9 receives a leading zero; the hour 0 and the minute are written
without padding, so the first two texts are not of the form HH:MM. -/
theorem getHourAndMinutes_text_examples :
    (getHourAndMinutes (alarmWith 0 0 false false false false false false false)).innerText
      = "0:0" ∧
    (getHourAndMinutes (alarmWith 9 5 false false false false false false false)).innerText
      = "09:5" ∧
    (getHourAndMinutes (alarmWith 23 59 false false false false false false false)).innerText
      = "23:59" := by
  decide

/-- C9: the time label carries the class `text-muted` exactly when no day is
active. -/
theorem getHourAndMinutes_muted_iff (a : Alarm ι κ) :
    "text-muted" ∈ (getHourAndMinutes a).classList ↔ getNumberOfDaysActives a = 0 := by
  rw [← isAllDaysDeactivate_iff]
  unfold getHourAndMinutes
  by_cases h : isAllDaysDeactivate a = true
  · simp only [h, if_true, iff_true, classList_setInnerText]
    decide
  · have hf : isAllDaysDeactivate a = false := by simpa using h
    simp only [hf, Bool.false_eq_true, if_false, iff_false, classList_setInnerText]
    decide

/-! ## The abbreviated label -/

/-- C4: with exactly Monday, Wednesday and Friday active, the text of the
container returned by `getDaysUsed` is `undefined, `: the callback given to
`days.map` returns nothing, and each iteration of the last loop assigns
`innerText` anew. -/
theorem getDaysUsed_label_monday_wednesday_friday :
    getNumberOfDaysActives (alarmWith 12 30 false true false true false true false) = 3 ∧
    (getDaysUsed (alarmWith 12 30 false true false true false true false)).innerText
      = "undefined, " := by
  decide

/-- C8: for an alarm holding the seven canonical days, the days collected by
`getDaysUsed` are the canonical sequence restricted to the days mapped to true:
a day is collected exactly when it is mapped to true, none is collected twice,
and the order is Sunday first. -/
theorem collectActiveDays_canonical (a : Alarm ι κ) (h : HasCanonicalDays a) :
    collectActiveDays a
      = ["SUNDAY", "MONDAY", "TUESDAY", "WEDNESDAY", "THURSDAY", "FRIDAY", "SATURDAY"].filter
          (fun day => decide ((day, true) ∈ a.daysActive)) ∧
    (∀ day, day ∈ collectActiveDays a ↔ (day, true) ∈ a.daysActive) ∧
    (collectActiveDays a).Nodup := by
  obtain ⟨su, mo, tu, we, th, fr, sa, hd⟩ := canonical_form a h
  have hmem : ∀ day, day ∈ collectActiveDays a ↔ (day, true) ∈ a.daysActive := by
    intro day
    rw [collectActiveDays_eq_filter]
    simp
  refine ⟨?_, hmem, ?_⟩
  · rw [collectActiveDays_eq_filter, hd]
    cases su <;> cases mo <;> cases tu <;> cases we <;> cases th <;> cases fr <;> cases sa <;>
      decide
  · rw [collectActiveDays_eq_filter, hd]
    cases su <;> cases mo <;> cases tu <;> cases we <;> cases th <;> cases fr <;> cases sa <;>
      decide

/-- C8 at Monday, Wednesday and Friday: the list is MONDAY, WEDNESDAY, FRIDAY. -/
theorem collectActiveDays_canonical_witness :
    HasCanonicalDays (alarmWith 12 30 false true false true false true false) ∧
    collectActiveDays (alarmWith 12 30 false true false true false true false)
      = ["MONDAY", "WEDNESDAY", "FRIDAY"] :=
  ⟨rfl, (collectActiveDays_canonical
    (alarmWith 12 30 false true false true false true false) rfl).1.trans (by decide)⟩

/-! ## Serialization -/

/-- C5: for an alarm holding the seven canonical days, the day record of
`toJSON` has exactly the keys sunday, monday, tuesday, wednesday, thursday,
friday, saturday, each with the value that `daysActive` holds for the day of
that name, and the identifier, hour and minute are the alarm's own. -/
theorem toJSON_day_record (a : Alarm ι κ) (h : HasCanonicalDays a) :
    mapKeys (toJSON a).daysUsed
      = ["sunday", "monday", "tuesday", "wednesday", "thursday", "friday", "saturday"] ∧
    (toJSON a).daysUsed = a.daysActive.map (fun e => (toLowerCase e.1, e.2)) ∧
    (∀ day isUsed, (day, isUsed) ∈ a.daysActive →
      (toJSON a).daysUsed.lookup (toLowerCase day) = some isUsed) ∧
    (toJSON a).uuid = a.uuid ∧ (toJSON a).hour = a.hour ∧ (toJSON a).minute = a.minute := by
  obtain ⟨su, mo, tu, we, th, fr, sa, hd⟩ := canonical_form a h
  refine ⟨?_, ?_, ?_, rfl, rfl, rfl⟩
  · simp only [toJSON, hd]
    rfl
  · simp only [toJSON, hd]
    rfl
  · intro day isUsed hmem
    simp only [toJSON, hd]
    rw [hd] at hmem
    simp only [List.mem_cons, Prod.mk.injEq, List.mem_singleton, List.not_mem_nil,
      or_false] at hmem
    rcases hmem with ⟨rfl, rfl⟩ | ⟨rfl, rfl⟩ | ⟨rfl, rfl⟩ | ⟨rfl, rfl⟩ | ⟨rfl, rfl⟩ |
      ⟨rfl, rfl⟩ | ⟨rfl, rfl⟩ <;> rfl

/-- C5 at Monday, Wednesday and Friday active: the whole day record. -/
theorem toJSON_day_record_witness :
    HasCanonicalDays (alarmWith 12 30 false true false true false true false) ∧
    (toJSON (alarmWith 12 30 false true false true false true false)).daysUsed
      = [("sunday", false), ("monday", true), ("tuesday", false), ("wednesday", true),
         ("thursday", false), ("friday", true), ("saturday", false)] :=
  ⟨rfl, (toJSON_day_record
    (alarmWith 12 30 false true false true false true false) rfl).2.1.trans (by decide)⟩

/-- C6: for alarms holding the seven canonical days, upper-casing the keys of
the day record of `toJSON` gives back `daysActive`, and the hour and minute are
read back unchanged; hence two such alarms with the same `toJSON` result have
the same hour, minute and day activations. -/
theorem toJSON_loses_nothing (a b : Alarm ι κ) (ha : HasCanonicalDays a)
    (hb : HasCanonicalDays b) :
    ((toJSON a).daysUsed.map (fun e => (toUpperCase e.1, e.2)) = a.daysActive ∧
      (toJSON a).hour = a.hour ∧ (toJSON a).minute = a.minute) ∧
    (toJSON a = toJSON b →
      a.hour = b.hour ∧ a.minute = b.minute ∧ a.daysActive = b.daysActive) := by
  have back : ∀ c : Alarm ι κ, HasCanonicalDays c →
      (toJSON c).daysUsed.map (fun e => (toUpperCase e.1, e.2)) = c.daysActive := by
    intro c hc
    obtain ⟨su, mo, tu, we, th, fr, sa, hd⟩ := canonical_form c hc
    simp only [toJSON, hd]
    rfl
  refine ⟨⟨back a ha, rfl, rfl⟩, fun heq => ⟨?_, ?_, ?_⟩⟩
  · exact congrArg AlarmJSON.hour heq
  · exact congrArg AlarmJSON.minute heq
  · rw [← back a ha, ← back b hb, heq]

/-- C6 at two concrete alarms: Monday and Friday active, read back from the
record. -/
theorem toJSON_loses_nothing_witness :
    HasCanonicalDays (alarmWith 7 45 false true false false false true false) ∧
    (toJSON (alarmWith 7 45 false true false false false true false)).daysUsed.map
        (fun e => (toUpperCase e.1, e.2))
      = [("SUNDAY", false), ("MONDAY", true), ("TUESDAY", false), ("WEDNESDAY", false),
         ("THURSDAY", false), ("FRIDAY", true), ("SATURDAY", false)] :=
  ⟨rfl, (toJSON_loses_nothing
    (alarmWith 7 45 false true false false false true false)
    (alarmWith 12 30 false false false false false false false) rfl rfl).1.1.trans
    (by decide)⟩

/-! ## Invariants of the state -/

/-- C7: in every state reachable from a newly constructed alarm by the
operations of the class, the keys of `daysActive` are the seven canonical days,
Sunday first, the hour is at most 23 and the minute at most 59. -/
theorem reachable_invariant (w : Widgets ι κ) (a : Alarm ι κ) (h : Reachable w a) :
    mapKeys a.daysActive
      = ["SUNDAY", "MONDAY", "TUESDAY", "WEDNESDAY", "THURSDAY", "FRIDAY", "SATURDAY"] ∧
    a.hour ≤ 23 ∧ a.minute ≤ 59 := by
  induction h with
  | init r =>
    refine ⟨rfl, ?_, ?_⟩
    · show 12 ≤ 23
      decide
    · show 30 ≤ 59
      decide
  | step op _ ih =>
    obtain ⟨hh, hm, hd⟩ := runOperation_fields w op _
    rw [hh, hm, hd]
    exact ih

/-- C7 after the constructor, `toHTML` and `getDaysUsed`. -/
theorem reachable_invariant_witness :
    Reachable plainWidgets
      (runOperation plainWidgets .getDaysUsed
        (runOperation plainWidgets .toHTML (Alarm.new plainWidgets 1))) ∧
    mapKeys (runOperation plainWidgets .getDaysUsed
        (runOperation plainWidgets .toHTML (Alarm.new plainWidgets 1))).daysActive
      = ["SUNDAY", "MONDAY", "TUESDAY", "WEDNESDAY", "THURSDAY", "FRIDAY", "SATURDAY"] :=
  ⟨Reachable.step _ (Reachable.step _ (Reachable.init 1)),
   (reachable_invariant plainWidgets _
    (Reachable.step _ (Reachable.step _ (Reachable.init 1)))).1⟩

/-! ## Order of the tests in `getDaysUsed` -/

/-- C10: for every map, no two of `isAllDaysUsed`, `isOnlyThreeDaysUsedOrLess`
and `isAllDaysDeactivate` are true together, and testing the three conditions
in any order selects the branch that `getDaysUsed` takes. -/
theorem branch_independent_of_test_order (a : Alarm ι κ) :
    ¬ (isAllDaysUsed a = true ∧ isOnlyThreeDaysUsedOrLess a = true) ∧
    ¬ (isAllDaysUsed a = true ∧ isAllDaysDeactivate a = true) ∧
    ¬ (isOnlyThreeDaysUsedOrLess a = true ∧ isAllDaysDeactivate a = true) ∧
    (∀ order : List Condition,
      order.Perm [.allDaysUsed, .onlyThreeDaysUsedOrLess, .allDaysDeactivate] →
        branchInOrder order a = getDaysUsedBranch a ∧
        renderBranch a (branchInOrder order a) = getDaysUsed a) := by
  obtain ⟨x12, x13, x23⟩ := conditions_exclusive a
  refine ⟨x12, x13, x23, fun order hperm => ?_⟩
  have hall : ∀ c : Condition, c ∈ order := by
    intro c
    rw [hperm.mem_iff]
    cases c <;> simp
  have hb : branchInOrder order a = getDaysUsedBranch a := by
    unfold branchInOrder getDaysUsedBranch
    cases hf : order.find? (Condition.holds a) with
    | none =>
      have hnone := List.find?_eq_none.1 hf
      have h1 := hnone .allDaysUsed (hall _)
      have h2 := hnone .onlyThreeDaysUsedOrLess (hall _)
      have h3 := hnone .allDaysDeactivate (hall _)
      simp only [Condition.holds] at h1 h2 h3
      simp [h1, h2, h3]
    | some c =>
      have hc := List.find?_some hf
      cases c
      · simp only [Condition.holds] at hc
        simp [hc, Condition.branch]
      · simp only [Condition.holds] at hc
        have h1 : ¬ isAllDaysUsed a = true := fun h1 => x12 ⟨h1, hc⟩
        simp [hc, h1, Condition.branch]
      · simp only [Condition.holds] at hc
        have h1 : ¬ isAllDaysUsed a = true := fun h1 => x13 ⟨h1, hc⟩
        have h2 : ¬ isOnlyThreeDaysUsedOrLess a = true := fun h2 => x23 ⟨h2, hc⟩
        simp [hc, h1, h2, Condition.branch]
  exact ⟨hb, by rw [hb, getDaysUsed_eq_renderBranch]⟩

/-- C10 at Monday, Wednesday and Friday active, testing `isAllDaysDeactivate`
first and `isAllDaysUsed` last. -/
theorem branch_independent_of_test_order_witness :
    branchInOrder [.allDaysDeactivate, .onlyThreeDaysUsedOrLess, .allDaysUsed]
        (alarmWith 12 30 false true false true false true false)
      = getDaysUsedBranch (alarmWith 12 30 false true false true false true false) :=
  ((branch_independent_of_test_order
    (alarmWith 12 30 false true false true false true false)).2.2.2
    [.allDaysDeactivate, .onlyThreeDaysUsedOrLess, .allDaysUsed] (by decide)).1

end Respikar
